import Mathlib

/-!
Shallow embedding of the dotenvy search-and-open subsystem:
`src/dotenv/src/find.rs` (the recursive ancestor-directory search `find`)
and `src/dotenv/src/errors.rs` (the `ParseError` / `IoError` / `EnvVar`
error taxonomy with its `path`, `not_found` and `Display` contracts).

Paths are modelled as an `absolute` flag plus a list of components, so that
`join` replaces the whole path when the right-hand side is absolute (as
`std::path::Path::join` does) and `parent` drops the last component,
returning `none` exactly for the two parentless roots `/` and the empty
relative path (as `std::path::Path::parent` does). The filesystem is a
function from paths to the outcome of `fs::metadata`: either metadata
carrying an `is_file` flag, or an OS error carrying a kind and a message.
-/

namespace Dotenvy

/-- A filesystem path: whether it is absolute, plus its components in order. -/
structure FsPath where
  absolute : Bool
  components : List String
deriving DecidableEq

/-- Model of `std::path::Path::join`: appending a relative path extends the
components, while joining with an absolute path replaces the whole path. -/
def FsPath.join (p q : FsPath) : FsPath :=
  if q.absolute then q else ⟨p.absolute, p.components ++ q.components⟩

/-- Model of `std::path::Path::parent`: drop the last component; the roots
(`/` and the empty relative path) have no parent. -/
def FsPath.parent (p : FsPath) : Option FsPath :=
  if p.components.isEmpty then none
  else some ⟨p.absolute, p.components.dropLast⟩

/-- Model of `std::path::Path::to_string_lossy` for our paths. -/
def FsPath.render (p : FsPath) : String :=
  (if p.absolute then "/" else "") ++ String.intercalate "/" p.components

/-- The kind of an `std::io::Error`, with the kinds the code distinguishes. -/
inductive ErrKind where
  | notFound
  | permissionDenied
  | otherKind (tag : String)
deriving DecidableEq

/-- Model of `std::io::Error`: a kind plus the message its `Display` shows. -/
structure OsError where
  kind : ErrKind
  msg : String
deriving DecidableEq

/-- Model of `std::env::VarError`. -/
inductive VarError where
  | notPresent
  | notUnicode (s : String)
deriving DecidableEq

/-- `ParseError` of `errors.rs`: optional source path, the offending line's
text, and the column index. -/
structure ParseError where
  path : Option FsPath
  line : String
  col : Nat
deriving DecidableEq

/-- `ParseError::from_parts` of `errors.rs`: stores the three fields as given. -/
def ParseError.from_parts (path : Option FsPath) (line : String) (col : Nat) :
    ParseError :=
  ⟨path, line, col⟩

/-- The `Display` impl for `ParseError`: an optional `"<path>: "` part
followed by `'<line>', error at column <col>`. -/
def ParseError.display (e : ParseError) : String :=
  (match e.path with
   | some path => path.render ++ ": "
   | none => "") ++ "'" ++ e.line ++ "', error at column " ++ toString e.col

/-- `IoError` of `errors.rs`: optional path plus the underlying OS error. -/
structure IoError where
  path : Option FsPath
  source : OsError
deriving DecidableEq

/-- `IoError::without_path` of `errors.rs`. -/
def IoError.without_path (source : OsError) : IoError :=
  ⟨none, source⟩

/-- `IoError::from_parts` of `errors.rs`: stores the two fields as given. -/
def IoError.from_parts (path : Option FsPath) (source : OsError) : IoError :=
  ⟨path, source⟩

/-- The `Display` impl for `IoError`: an optional `"<path>: "` part followed
by the underlying OS error's message. -/
def IoError.display (e : IoError) : String :=
  (match e.path with
   | some path => path.render ++ ": "
   | none => "") ++ e.source.msg

/-- The `Error` enum of `errors.rs`: one variant per failure origin. -/
inductive Error where
  | parse (e : ParseError)
  | ioErr (e : IoError)
  | envVar (e : VarError)
deriving DecidableEq

/-- `Error::path` of `errors.rs`: the path of the active variant, if any. -/
def Error.path : Error → Option FsPath
  | Error.parse e => e.path
  | Error.ioErr e => e.path
  | Error.envVar _ => none

/-- `Error::not_found` of `errors.rs`: true exactly on an `Io` variant whose
OS error kind is `NotFound`. -/
def Error.not_found : Error → Bool
  | Error.ioErr e => decide (e.source.kind = ErrKind.notFound)
  | _ => false

/-- The outcome of `fs::metadata` at one path: metadata whose only relevant
attribute is `is_file`, or an OS error. -/
inductive Metadata where
  | ok (is_file : Bool)
  | err (e : OsError)
deriving DecidableEq

/-- A metadata outcome on which the source's match falls through to the
parent step: a non-file entry, or a "not found" error. -/
def Metadata.falls_through : Metadata → Bool
  | Metadata.ok is_file => !is_file
  | Metadata.err e => decide (e.kind = ErrKind.notFound)

/-- A metadata outcome the source treats as a match: an existing regular file. -/
def Metadata.is_file_hit : Metadata → Bool
  | Metadata.ok is_file => is_file
  | Metadata.err _ => false

/-- The parent of a path has strictly fewer components. -/
theorem FsPath.parent_length_lt (p q : FsPath) (h : p.parent = some q) :
    q.components.length < p.components.length := by
  unfold FsPath.parent at h
  cases hc : p.components with
  | nil => rw [hc] at h; simp at h
  | cons c cs =>
      rw [hc] at h
      simp at h
      subst h
      simp only [List.length_dropLast, List.length_cons]
      omega

/-- The `find` function of `find.rs`: compute `candidate = directory.join
filename`, query its metadata; an existing regular file is returned, a
non-"not found" error aborts with an `IoError` carrying the candidate's path,
anything else falls through; then recurse on the parent directory, or, at a
parentless directory, fail with an `IoError` carrying that directory's path
and a synthetic "not found" OS error. The early `return`s of the source are
modelled by the `early : Option _` value. -/
def find (fs : FsPath → Metadata) (directory filename : FsPath) :
    Except Error FsPath :=
  let candidate := directory.join filename
  let early : Option (Except Error FsPath) :=
    match fs candidate with
    | Metadata.ok is_file =>
        if is_file then some (Except.ok candidate) else none
    | Metadata.err error =>
        if error.kind ≠ ErrKind.notFound then
          some (Except.error (Error.ioErr (IoError.from_parts (some candidate) error)))
        else none
  match early with
  | some result => result
  | none =>
      match h : directory.parent with
      | some parent => find fs parent filename
      | none =>
          let source := OsError.mk ErrKind.notFound "path not found"
          Except.error (Error.ioErr (IoError.from_parts (some directory) source))
termination_by directory.components.length
decreasing_by
  exact FsPath.parent_length_lt directory parent h

/-- The fall-through continuation of `find`: recurse on the parent, or fail
at a parentless directory. -/
def find_fall (fs : FsPath → Metadata) (directory filename : FsPath) :
    Except Error FsPath :=
  match directory.parent with
  | some parent => find fs parent filename
  | none =>
      Except.error (Error.ioErr (IoError.from_parts (some directory)
        (OsError.mk ErrKind.notFound "path not found")))

/-- One unfolding of `find`, in terms of `find_fall`. -/
theorem find_unfold (fs : FsPath → Metadata) (directory filename : FsPath) :
    find fs directory filename =
      match fs (directory.join filename) with
      | Metadata.ok is_file =>
          if is_file then Except.ok (directory.join filename)
          else find_fall fs directory filename
      | Metadata.err error =>
          if error.kind ≠ ErrKind.notFound then
            Except.error (Error.ioErr
              (IoError.from_parts (some (directory.join filename)) error))
          else find_fall fs directory filename := by
  rw [find]
  cases hm : fs (directory.join filename) with
  | ok is_file =>
      cases is_file with
      | true => simp [find_fall]
      | false => cases hp : directory.parent <;> simp [find_fall, hp]
  | err e =>
      by_cases hk : e.kind = ErrKind.notFound
      · cases hp : directory.parent <;> simp [hk, find_fall, hp]
      · simp [hk, find_fall]

/-- The ancestor chain of a path: the path itself, then each successive
parent, down to the parentless root (the spec's "ancestor directory",
glossary: any directory reachable by repeatedly taking the parent, up to and
including the filesystem root). In closed form: the prefixes of the
component list, longest first. -/
def FsPath.ancestors (p : FsPath) : List FsPath :=
  (List.range (p.components.length + 1)).reverse.map
    (fun k => ⟨p.absolute, p.components.take k⟩)

theorem FsPath.parent_nil (ab : Bool) :
    FsPath.parent ⟨ab, []⟩ = none := rfl

theorem FsPath.parent_concat (ab : Bool) (l : List String) (c : String) :
    FsPath.parent ⟨ab, l ++ [c]⟩ = some ⟨ab, l⟩ := by
  simp [FsPath.parent, List.dropLast_concat]

theorem FsPath.ancestors_nil (ab : Bool) :
    FsPath.ancestors ⟨ab, []⟩ = [⟨ab, []⟩] := rfl

theorem FsPath.ancestors_concat (ab : Bool) (l : List String) (c : String) :
    FsPath.ancestors ⟨ab, l ++ [c]⟩ = ⟨ab, l ++ [c]⟩ :: FsPath.ancestors ⟨ab, l⟩ := by
  unfold FsPath.ancestors
  simp only [List.length_append, List.length_cons, List.length_nil, Nat.zero_add]
  rw [show l.length + 1 + 1 = (l.length + 1) + 1 from rfl, List.range_succ]
  simp only [List.reverse_append, List.reverse_cons, List.reverse_nil,
    List.nil_append, List.singleton_append, List.map_cons]
  congr 1
  · rw [show l.length + 1 = (l ++ [c]).length by simp]
    rw [List.take_length]
  · apply List.map_congr_left
    intro k hk
    rw [List.mem_reverse, List.mem_range] at hk
    rw [List.take_append_of_le_length (by omega)]

/-- Joining with an absolute path discards the left-hand side, as
`std::path::Path::join` does. -/
theorem FsPath.join_absolute (p q : FsPath) (h : q.absolute = true) :
    p.join q = q := by
  simp [FsPath.join, h]

/-- A fuel-indexed variant of `find`, structurally recursive on the fuel:
it runs the same algorithm and answers `none` when the fuel runs out. -/
def find_fuel (fs : FsPath → Metadata) :
    Nat → FsPath → FsPath → Option (Except Error FsPath)
  | 0, _, _ => none
  | fuel + 1, directory, filename =>
    let candidate := directory.join filename
    let early : Option (Except Error FsPath) :=
      match fs candidate with
      | Metadata.ok is_file =>
          if is_file then some (Except.ok candidate) else none
      | Metadata.err error =>
          if error.kind ≠ ErrKind.notFound then
            some (Except.error (Error.ioErr (IoError.from_parts (some candidate) error)))
          else none
    match early with
    | some result => some result
    | none =>
        match directory.parent with
        | some parent => find_fuel fs fuel parent filename
        | none =>
            some (Except.error (Error.ioErr (IoError.from_parts (some directory)
              (OsError.mk ErrKind.notFound "path not found"))))

/-- One step of `find_fuel` on positive fuel, mirroring `find_unfold`. -/
theorem find_fuel_succ (fs : FsPath → Metadata) (fuel : Nat)
    (directory filename : FsPath) :
    find_fuel fs (fuel + 1) directory filename =
      match fs (directory.join filename) with
      | Metadata.ok is_file =>
          if is_file then some (Except.ok (directory.join filename))
          else
            (match directory.parent with
             | some parent => find_fuel fs fuel parent filename
             | none =>
                 some (Except.error (Error.ioErr (IoError.from_parts (some directory)
                   (OsError.mk ErrKind.notFound "path not found")))))
      | Metadata.err error =>
          if error.kind ≠ ErrKind.notFound then
            some (Except.error (Error.ioErr
              (IoError.from_parts (some (directory.join filename)) error)))
          else
            (match directory.parent with
             | some parent => find_fuel fs fuel parent filename
             | none =>
                 some (Except.error (Error.ioErr (IoError.from_parts (some directory)
                   (OsError.mk ErrKind.notFound "path not found"))))) := by
  simp only [find_fuel]
  cases hm : fs (directory.join filename) with
  | ok is_file =>
      cases is_file with
      | true => simp
      | false => cases hp : directory.parent <;> simp [hp]
  | err e =>
      by_cases hk : e.kind = ErrKind.notFound
      · cases hp : directory.parent <;> simp [hk, hp]
      · simp [hk]

/-- Fuel one past the number of components always suffices: the recursion of
`find` is bounded by the length of the ancestor chain. -/
theorem find_eq_fuel (fs : FsPath → Metadata) (D F : FsPath) :
    find_fuel fs (D.components.length + 1) D F = some (find fs D F) := by
  obtain ⟨ab, comps⟩ := D
  induction comps using List.reverseRecOn with
  | nil =>
      rw [find_unfold, find_fuel_succ]
      cases hm : fs (FsPath.join ⟨ab, []⟩ F) with
      | ok is_file =>
          cases is_file <;> simp [find_fall, FsPath.parent_nil]
      | err e =>
          by_cases hk : e.kind = ErrKind.notFound <;>
            simp [hk, find_fall, FsPath.parent_nil]
  | append_singleton l c ih =>
      rw [find_unfold]
      have hfuel : (FsPath.mk ab (l ++ [c])).components.length + 1 = (l.length + 1) + 1 := by
        simp
      rw [hfuel, find_fuel_succ]
      have ih2 : find_fuel fs (l.length + 1) ⟨ab, l⟩ F = some (find fs ⟨ab, l⟩ F) := by
        simpa using ih
      cases hm : fs (FsPath.join ⟨ab, l ++ [c]⟩ F) with
      | ok is_file =>
          cases is_file <;> simp [find_fall, FsPath.parent_concat, ih2]
      | err e =>
          by_cases hk : e.kind = ErrKind.notFound <;>
            simp [hk, find_fall, FsPath.parent_concat, ih2]

/-- Evaluate `find` at a concrete input through the fuel-indexed variant. -/
theorem find_eval (fs : FsPath → Metadata) (D F : FsPath) (r : Except Error FsPath)
    (h : find_fuel fs (D.components.length + 1) D F = some r) :
    find fs D F = r := by
  have h2 := find_eq_fuel fs D F
  rw [h] at h2
  exact (Option.some.inj h2).symm

/-- A fall-through metadata outcome is a non-file entry or a "not found" error. -/
theorem falls_through_cases (m : Metadata) (h : m.falls_through = true) :
    m = Metadata.ok false ∨ ∃ e : OsError, m = Metadata.err e ∧ e.kind = ErrKind.notFound := by
  cases m with
  | ok is_file => cases is_file <;> simp_all [Metadata.falls_through]
  | err e => simp_all [Metadata.falls_through]

/-- A file hit is metadata of a regular file. -/
theorem is_file_hit_eq (m : Metadata) (h : m.is_file_hit = true) :
    m = Metadata.ok true := by
  cases m with
  | ok is_file => cases is_file <;> simp_all [Metadata.is_file_hit]
  | err e => simp_all [Metadata.is_file_hit]

/-- When the candidate is a regular file, `find` returns it. -/
theorem find_hit (fs : FsPath → Metadata) (D F : FsPath)
    (h : (fs (D.join F)).is_file_hit = true) :
    find fs D F = Except.ok (D.join F) := by
  rw [find_unfold, is_file_hit_eq _ h]
  simp

/-- When the candidate's metadata falls through, `find` continues exactly as
`find_fall`: with the parent directory, or the root failure. -/
theorem find_fall_through (fs : FsPath → Metadata) (D F : FsPath)
    (h : (fs (D.join F)).falls_through = true) :
    find fs D F = find_fall fs D F := by
  rw [find_unfold]
  rcases falls_through_cases _ h with hm | ⟨e, hm, hk⟩
  · rw [hm]; simp
  · rw [hm]; simp [hk]

/-- When the candidate's metadata query fails with a non-"not found" error,
`find` aborts with an `IoError` carrying the candidate's path. -/
theorem find_err (fs : FsPath → Metadata) (D F : FsPath) (e : OsError)
    (hm : fs (D.join F) = Metadata.err e) (hk : e.kind ≠ ErrKind.notFound) :
    find fs D F = Except.error (Error.ioErr (IoError.from_parts (some (D.join F)) e)) := by
  rw [find_unfold, hm]
  simp [hk]

/-- Two filesystems that agree everywhere except possibly at paths where both
fall through give the same search result. -/
theorem find_agree (fs fs2 : FsPath → Metadata) (F : FsPath)
    (hag : ∀ q : FsPath, fs q = fs2 q ∨
      ((fs q).falls_through = true ∧ (fs2 q).falls_through = true)) :
    ∀ D : FsPath, find fs D F = find fs2 D F := by
  intro D
  obtain ⟨ab, comps⟩ := D
  induction comps using List.reverseRecOn with
  | nil =>
      have hfall : find_fall fs ⟨ab, []⟩ F = find_fall fs2 ⟨ab, []⟩ F := by
        simp [find_fall, FsPath.parent_nil]
      rcases hag (FsPath.join ⟨ab, []⟩ F) with heq | ⟨h1, h2⟩
      · rw [find_unfold, find_unfold, heq]
        cases hm : fs2 (FsPath.join ⟨ab, []⟩ F) with
        | ok is_file => cases is_file <;> simp [hfall]
        | err e => by_cases hk : e.kind = ErrKind.notFound <;> simp [hk, hfall]
      · rw [find_fall_through fs _ _ h1, find_fall_through fs2 _ _ h2, hfall]
  | append_singleton l c ih =>
      have hfall : find_fall fs ⟨ab, l ++ [c]⟩ F = find_fall fs2 ⟨ab, l ++ [c]⟩ F := by
        simp [find_fall, FsPath.parent_concat, ih]
      rcases hag (FsPath.join ⟨ab, l ++ [c]⟩ F) with heq | ⟨h1, h2⟩
      · rw [find_unfold, find_unfold, heq]
        cases hm : fs2 (FsPath.join ⟨ab, l ++ [c]⟩ F) with
        | ok is_file => cases is_file <;> simp [hfall]
        | err e => by_cases hk : e.kind = ErrKind.notFound <;> simp [hk, hfall]
      · rw [find_fall_through fs _ _ h1, find_fall_through fs2 _ _ h2, hfall]

/-- Core of C1: when an ancestor chain splits as `pre ++ A :: rest`, every
candidate before `A` falls through and `A`'s candidate is a regular file,
`find` returns `A`'s candidate. -/
theorem find_nearest_core (fs : FsPath → Metadata) (F : FsPath) :
    ∀ (D : FsPath) (pre rest : List FsPath) (A : FsPath),
      D.ancestors = pre ++ A :: rest →
      (∀ B ∈ pre, (fs (B.join F)).falls_through = true) →
      (fs (A.join F)).is_file_hit = true →
      find fs D F = Except.ok (A.join F) := by
  intro D
  obtain ⟨ab, comps⟩ := D
  induction comps using List.reverseRecOn with
  | nil =>
      intro pre rest A hsplit hpre hA
      rw [FsPath.ancestors_nil] at hsplit
      cases pre with
      | nil =>
          simp only [List.nil_append, List.cons.injEq] at hsplit
          obtain ⟨h1, _⟩ := hsplit
          subst h1
          exact find_hit _ _ _ hA
      | cons B pre' => simp at hsplit
  | append_singleton l c ih =>
      intro pre rest A hsplit hpre hA
      rw [FsPath.ancestors_concat] at hsplit
      cases pre with
      | nil =>
          simp only [List.nil_append, List.cons.injEq] at hsplit
          obtain ⟨h1, _⟩ := hsplit
          subst h1
          exact find_hit _ _ _ hA
      | cons B pre' =>
          simp only [List.cons_append, List.cons.injEq] at hsplit
          obtain ⟨h1, h2⟩ := hsplit
          have hthrough : (fs (FsPath.join ⟨ab, l ++ [c]⟩ F)).falls_through = true := by
            have := hpre B (List.mem_cons_self B pre')
            rw [← h1] at this
            exact this
          rw [find_fall_through _ _ _ hthrough]
          rw [show find_fall fs ⟨ab, l ++ [c]⟩ F = find fs ⟨ab, l⟩ F by
            simp [find_fall, FsPath.parent_concat]]
          exact ih pre' rest A h2 (fun B2 hB2 => hpre B2 (List.mem_cons_of_mem _ hB2)) hA

/-- Core of C2: when every candidate along the ancestor chain falls through,
`find` fails with the synthetic "not found" `IoError` tagged with the
parentless root of the start directory. -/
theorem find_missing_core (fs : FsPath → Metadata) (F : FsPath) :
    ∀ D : FsPath,
      (∀ A ∈ D.ancestors, (fs (A.join F)).falls_through = true) →
      find fs D F = Except.error (Error.ioErr (IoError.from_parts
        (some ⟨D.absolute, []⟩) (OsError.mk ErrKind.notFound "path not found"))) := by
  intro D
  obtain ⟨ab, comps⟩ := D
  induction comps using List.reverseRecOn with
  | nil =>
      intro h
      have h0 := h ⟨ab, []⟩ (by rw [FsPath.ancestors_nil]; exact List.mem_singleton.mpr rfl)
      rw [find_fall_through _ _ _ h0]
      simp [find_fall, FsPath.parent_nil]
  | append_singleton l c ih =>
      intro h
      have h0 := h ⟨ab, l ++ [c]⟩ (by
        rw [FsPath.ancestors_concat]
        exact List.mem_cons_self _ _)
      rw [find_fall_through _ _ _ h0]
      rw [show find_fall fs ⟨ab, l ++ [c]⟩ F = find fs ⟨ab, l⟩ F by
        simp [find_fall, FsPath.parent_concat]]
      exact ih (fun A hA => h A (by
        rw [FsPath.ancestors_concat]
        exact List.mem_cons_of_mem _ hA))

/-- The parentless root belongs to every ancestor chain. -/
theorem FsPath.root_mem_ancestors (p : FsPath) :
    (⟨p.absolute, []⟩ : FsPath) ∈ p.ancestors := by
  unfold FsPath.ancestors
  refine List.mem_map.mpr ⟨0, ?_, ?_⟩
  · rw [List.mem_reverse, List.mem_range]
    omega
  · simp

/-- Core of C3: when the candidates of the nearer ancestors `pre` fall
through and `A`'s metadata query fails with a non-"not found" error, `find`
aborts with an `IoError` carrying `A`'s candidate path. -/
theorem find_abort_core (fs : FsPath → Metadata) (F : FsPath) :
    ∀ (D : FsPath) (pre rest : List FsPath) (A : FsPath) (e : OsError),
      D.ancestors = pre ++ A :: rest →
      (∀ B ∈ pre, (fs (B.join F)).falls_through = true) →
      fs (A.join F) = Metadata.err e →
      e.kind ≠ ErrKind.notFound →
      find fs D F = Except.error (Error.ioErr (IoError.from_parts (some (A.join F)) e)) := by
  intro D
  obtain ⟨ab, comps⟩ := D
  induction comps using List.reverseRecOn with
  | nil =>
      intro pre rest A e hsplit hpre hA hk
      rw [FsPath.ancestors_nil] at hsplit
      cases pre with
      | nil =>
          simp only [List.nil_append, List.cons.injEq] at hsplit
          obtain ⟨h1, _⟩ := hsplit
          subst h1
          exact find_err _ _ _ _ hA hk
      | cons B pre' => simp at hsplit
  | append_singleton l c ih =>
      intro pre rest A e hsplit hpre hA hk
      rw [FsPath.ancestors_concat] at hsplit
      cases pre with
      | nil =>
          simp only [List.nil_append, List.cons.injEq] at hsplit
          obtain ⟨h1, _⟩ := hsplit
          subst h1
          exact find_err _ _ _ _ hA hk
      | cons B pre' =>
          simp only [List.cons_append, List.cons.injEq] at hsplit
          obtain ⟨h1, h2⟩ := hsplit
          have hthrough : (fs (FsPath.join ⟨ab, l ++ [c]⟩ F)).falls_through = true := by
            have := hpre B (List.mem_cons_self B pre')
            rw [← h1] at this
            exact this
          rw [find_fall_through _ _ _ hthrough]
          rw [show find_fall fs ⟨ab, l ++ [c]⟩ F = find fs ⟨ab, l⟩ F by
            simp [find_fall, FsPath.parent_concat]]
          exact ih pre' rest A e h2 (fun B2 hB2 => hpre B2 (List.mem_cons_of_mem _ hB2)) hA hk

/-- Core of C10: with an absolute filename the search result is fully
determined by the metadata at the filename itself together with the root of
the start directory. -/
theorem find_absolute_core (fs : FsPath → Metadata) (F : FsPath)
    (habs : F.absolute = true) :
    ∀ D : FsPath,
      find fs D F =
        (match fs F with
         | Metadata.ok is_file =>
             if is_file then Except.ok F
             else Except.error (Error.ioErr (IoError.from_parts (some ⟨D.absolute, []⟩)
               (OsError.mk ErrKind.notFound "path not found")))
         | Metadata.err e =>
             if e.kind ≠ ErrKind.notFound then
               Except.error (Error.ioErr (IoError.from_parts (some F) e))
             else Except.error (Error.ioErr (IoError.from_parts (some ⟨D.absolute, []⟩)
               (OsError.mk ErrKind.notFound "path not found")))) := by
  intro D
  obtain ⟨ab, comps⟩ := D
  induction comps using List.reverseRecOn with
  | nil =>
      rw [find_unfold, FsPath.join_absolute ⟨ab, []⟩ F habs]
      cases hm : fs F with
      | ok is_file =>
          cases is_file <;> simp [find_fall, FsPath.parent_nil]
      | err e =>
          by_cases hk : e.kind = ErrKind.notFound <;>
            simp [hk, find_fall, FsPath.parent_nil]
  | append_singleton l c ih =>
      rw [find_unfold, FsPath.join_absolute ⟨ab, l ++ [c]⟩ F habs]
      cases hm : fs F with
      | ok is_file =>
          cases is_file with
          | true => simp
          | false =>
              rw [show find_fall fs ⟨ab, l ++ [c]⟩ F = find fs ⟨ab, l⟩ F by
                simp [find_fall, FsPath.parent_concat]]
              rw [ih, hm]
              simp
      | err e =>
          by_cases hk : e.kind = ErrKind.notFound
          · simp only [hk, ne_eq, not_true_eq_false, if_false, Bool.false_eq_true]
            rw [show find_fall fs ⟨ab, l ++ [c]⟩ F = find fs ⟨ab, l⟩ F by
              simp [find_fall, FsPath.parent_concat]]
            rw [ih, hm]
            simp [hk]
          · simp [hk]

/-- An instance to evaluate equalities of search results on concrete inputs. -/
instance {ε α : Type} [DecidableEq ε] [DecidableEq α] : DecidableEq (Except ε α) := fun x y =>
  match x, y with
  | Except.ok a, Except.ok b =>
      if h : a = b then Decidable.isTrue (by rw [h])
      else Decidable.isFalse (by intro hc; cases hc; exact h rfl)
  | Except.ok _, Except.error _ => Decidable.isFalse (by intro hc; cases hc)
  | Except.error _, Except.ok _ => Decidable.isFalse (by intro hc; cases hc)
  | Except.error e, Except.error f =>
      if h : e = f then Decidable.isTrue (by rw [h])
      else Decidable.isFalse (by intro hc; cases hc; exact h rfl)

/-- A concrete filesystem: `/.env` is a regular file, nothing else exists. -/
def fs_hit_at_root : FsPath → Metadata := fun p =>
  if p = ⟨true, [".env"]⟩ then Metadata.ok true
  else Metadata.err ⟨ErrKind.notFound, "nf"⟩

/-- A concrete filesystem: the metadata query at `/a/.env` is denied,
`/.env` is a regular file, nothing else exists. -/
def fs_denied_then_hit : FsPath → Metadata := fun p =>
  if p = ⟨true, ["a", ".env"]⟩ then Metadata.err ⟨ErrKind.permissionDenied, "denied"⟩
  else if p = ⟨true, [".env"]⟩ then Metadata.ok true
  else Metadata.err ⟨ErrKind.notFound, "nf"⟩

/-- A concrete filesystem with no entries at all. -/
def fs_all_missing : FsPath → Metadata := fun _ =>
  Metadata.err ⟨ErrKind.notFound, "nf"⟩

/-- A concrete filesystem: the metadata query at `/a/.env` is denied and
nothing exists anywhere. -/
def fs_denied_at_start : FsPath → Metadata := fun p =>
  if p = ⟨true, ["a", ".env"]⟩ then Metadata.err ⟨ErrKind.permissionDenied, "denied"⟩
  else Metadata.err ⟨ErrKind.notFound, "nf"⟩

/-- A concrete filesystem: `/a/.env` exists but is a directory, `/.env` is a
regular file, nothing else exists. -/
def fs_dir_entry : FsPath → Metadata := fun p =>
  if p = ⟨true, ["a", ".env"]⟩ then Metadata.ok false
  else if p = ⟨true, [".env"]⟩ then Metadata.ok true
  else Metadata.err ⟨ErrKind.notFound, "nf"⟩

/-- C1 (amended): for every start directory `D` and filename `F`, if the
ancestor chain of `D` splits as `pre ++ A :: rest` where `A`'s candidate is
a regular file and every candidate of the nearer ancestors `pre` falls
through (a non-file entry or a "not found" metadata error — the proviso the
counterexample forces), then `find` returns `Ok` with `A`'s candidate path:
the nearest such ancestor, the start directory checked before any ancestor,
never the path from a farther ancestor. -/
theorem find_returns_nearest_hit (fs : FsPath → Metadata) (D F : FsPath)
    (pre rest : List FsPath) (A : FsPath)
    (hsplit : D.ancestors = pre ++ A :: rest)
    (hpre : ∀ B ∈ pre, (fs (B.join F)).falls_through = true)
    (hA : (fs (A.join F)).is_file_hit = true) :
    find fs D F = Except.ok (A.join F) :=
  find_nearest_core fs F D pre rest A hsplit hpre hA

/-- C1 witness: on a tree with `/.env` a regular file and nothing at `/a`,
searching from `/a` returns `/.env`. -/
theorem find_returns_nearest_hit_witness :
    FsPath.ancestors ⟨true, ["a"]⟩ = [⟨true, ["a"]⟩] ++ (⟨true, []⟩ : FsPath) :: []
    ∧ (∀ B ∈ ([⟨true, ["a"]⟩] : List FsPath),
        (fs_hit_at_root (B.join ⟨false, [".env"]⟩)).falls_through = true)
    ∧ (fs_hit_at_root (FsPath.join ⟨true, []⟩ ⟨false, [".env"]⟩)).is_file_hit = true
    ∧ find fs_hit_at_root ⟨true, ["a"]⟩ ⟨false, [".env"]⟩
        = Except.ok (FsPath.join ⟨true, []⟩ ⟨false, [".env"]⟩) :=
  ⟨by decide, by decide, by decide,
    find_returns_nearest_hit fs_hit_at_root ⟨true, ["a"]⟩ ⟨false, [".env"]⟩
      [⟨true, ["a"]⟩] [] ⟨true, []⟩ (by decide) (by decide) (by decide)⟩

/-- C1 counterexample to the claim as stated: `/.env` exists as a regular
file at the unique ancestor holding the filename, yet `find` from `/a` does
not return its candidate path, because the metadata query at the nearer
candidate `/a/.env` fails with a permission error and aborts the search. -/
theorem find_returns_nearest_hit_cex :
    (fs_denied_then_hit (FsPath.join ⟨true, []⟩ ⟨false, [".env"]⟩)).is_file_hit = true
    ∧ (⟨true, []⟩ : FsPath) ∈ FsPath.ancestors ⟨true, ["a"]⟩
    ∧ (∀ A ∈ FsPath.ancestors ⟨true, ["a"]⟩,
        (fs_denied_then_hit (A.join ⟨false, [".env"]⟩)).is_file_hit = true →
          A = ⟨true, []⟩)
    ∧ find fs_denied_then_hit ⟨true, ["a"]⟩ ⟨false, [".env"]⟩
        ≠ Except.ok (FsPath.join ⟨true, []⟩ ⟨false, [".env"]⟩) := by
  refine ⟨by decide, by decide, by decide, ?_⟩
  rw [find_eval fs_denied_then_hit ⟨true, ["a"]⟩ ⟨false, [".env"]⟩
    (Except.error (Error.ioErr (IoError.from_parts (some ⟨true, ["a", ".env"]⟩)
      ⟨ErrKind.permissionDenied, "denied"⟩))) (by decide)]
  decide

/-- C2 (amended): if every candidate along the ancestor chain of `D` falls
through — no ancestor holds a regular file named `F` and, as the
counterexample forces, no metadata query fails with an error other than
"not found" — then `find` fails with an `IoError` tagged with the path of
the parentless ancestor reached at the end of the walk and the synthetic
"path not found" OS error, and `Error.not_found` on that error is true. -/
theorem find_all_missing_not_found (fs : FsPath → Metadata) (D F : FsPath)
    (h : ∀ A ∈ D.ancestors, (fs (A.join F)).falls_through = true) :
    find fs D F = Except.error (Error.ioErr (IoError.from_parts (some ⟨D.absolute, []⟩)
        (OsError.mk ErrKind.notFound "path not found")))
    ∧ (Error.ioErr (IoError.from_parts (some ⟨D.absolute, []⟩)
        (OsError.mk ErrKind.notFound "path not found"))).not_found = true
    ∧ (⟨D.absolute, []⟩ : FsPath) ∈ D.ancestors
    ∧ FsPath.parent ⟨D.absolute, []⟩ = none :=
  ⟨find_missing_core fs F D h, rfl, FsPath.root_mem_ancestors D, rfl⟩

/-- C2 witness: on an empty filesystem, searching from `/a` fails with the
synthetic "not found" error tagged with the root `/`. -/
theorem find_all_missing_not_found_witness :
    (∀ A ∈ FsPath.ancestors ⟨true, ["a"]⟩,
        (fs_all_missing (A.join ⟨false, [".env"]⟩)).falls_through = true)
    ∧ (find fs_all_missing ⟨true, ["a"]⟩ ⟨false, [".env"]⟩
          = Except.error (Error.ioErr (IoError.from_parts (some ⟨true, []⟩)
              (OsError.mk ErrKind.notFound "path not found")))
        ∧ (Error.ioErr (IoError.from_parts (some ⟨true, []⟩)
            (OsError.mk ErrKind.notFound "path not found"))).not_found = true
        ∧ (⟨true, []⟩ : FsPath) ∈ FsPath.ancestors ⟨true, ["a"]⟩
        ∧ FsPath.parent ⟨true, []⟩ = none) :=
  ⟨by decide,
    find_all_missing_not_found fs_all_missing ⟨true, ["a"]⟩ ⟨false, [".env"]⟩ (by decide)⟩

/-- C2 counterexample to the claim as stated: no ancestor of `/a` holds a
regular file named `.env`, yet `find` fails with an error tagged with the
candidate `/a/.env` (not the parentless root) and a permission-denied OS
error, on which `Error.not_found` is false. -/
theorem find_all_missing_not_found_cex :
    (∀ A ∈ FsPath.ancestors ⟨true, ["a"]⟩,
        (fs_denied_at_start (A.join ⟨false, [".env"]⟩)).is_file_hit = false)
    ∧ find fs_denied_at_start ⟨true, ["a"]⟩ ⟨false, [".env"]⟩
        = Except.error (Error.ioErr (IoError.from_parts (some ⟨true, ["a", ".env"]⟩)
            ⟨ErrKind.permissionDenied, "denied"⟩))
    ∧ (Error.ioErr (IoError.from_parts (some ⟨true, ["a", ".env"]⟩)
        ⟨ErrKind.permissionDenied, "denied"⟩)).not_found = false := by
  refine ⟨by decide, ?_, by decide⟩
  exact find_eval _ _ _ _ (by decide)

/-- C3: if, the nearer candidates all falling through, the metadata query on
ancestor `A`'s candidate fails with an OS error whose kind is not "not
found", `find` fails immediately with an `IoError` carrying that candidate's
path and the underlying OS error; and the result does not depend on the
filesystem at any farther ancestor: any filesystem agreeing on the nearer
candidates and on `A`'s gives the same result. -/
theorem find_error_aborts (fs : FsPath → Metadata) (D F : FsPath)
    (pre rest : List FsPath) (A : FsPath) (e : OsError)
    (hsplit : D.ancestors = pre ++ A :: rest)
    (hpre : ∀ B ∈ pre, (fs (B.join F)).falls_through = true)
    (hA : fs (A.join F) = Metadata.err e)
    (hk : e.kind ≠ ErrKind.notFound) :
    find fs D F = Except.error (Error.ioErr (IoError.from_parts (some (A.join F)) e))
    ∧ ∀ fs2 : FsPath → Metadata,
        (∀ B ∈ pre, fs2 (B.join F) = fs (B.join F)) →
        fs2 (A.join F) = fs (A.join F) →
        find fs2 D F = find fs D F := by
  have h1 := find_abort_core fs F D pre rest A e hsplit hpre hA hk
  refine ⟨h1, ?_⟩
  intro fs2 hag2 hagA
  have h2 := find_abort_core fs2 F D pre rest A e hsplit
    (fun B hB => by rw [hag2 B hB]; exact hpre B hB)
    (by rw [hagA]; exact hA) hk
  rw [h1, h2]

/-- C3 witness: a permission-denied candidate at the start directory aborts
the search at once, even though `/.env` exists farther up. -/
theorem find_error_aborts_witness :
    FsPath.ancestors ⟨true, ["a"]⟩
        = ([] : List FsPath) ++ (⟨true, ["a"]⟩ : FsPath) :: [⟨true, []⟩]
    ∧ (∀ B ∈ ([] : List FsPath),
        (fs_denied_then_hit (B.join ⟨false, [".env"]⟩)).falls_through = true)
    ∧ fs_denied_then_hit (FsPath.join ⟨true, ["a"]⟩ ⟨false, [".env"]⟩)
        = Metadata.err ⟨ErrKind.permissionDenied, "denied"⟩
    ∧ (⟨ErrKind.permissionDenied, "denied"⟩ : OsError).kind ≠ ErrKind.notFound
    ∧ (find fs_denied_then_hit ⟨true, ["a"]⟩ ⟨false, [".env"]⟩
          = Except.error (Error.ioErr (IoError.from_parts
              (some (FsPath.join ⟨true, ["a"]⟩ ⟨false, [".env"]⟩))
              ⟨ErrKind.permissionDenied, "denied"⟩))
        ∧ ∀ fs2 : FsPath → Metadata,
            (∀ B ∈ ([] : List FsPath),
              fs2 (B.join ⟨false, [".env"]⟩)
                = fs_denied_then_hit (B.join ⟨false, [".env"]⟩)) →
            fs2 (FsPath.join ⟨true, ["a"]⟩ ⟨false, [".env"]⟩)
              = fs_denied_then_hit (FsPath.join ⟨true, ["a"]⟩ ⟨false, [".env"]⟩) →
            find fs2 ⟨true, ["a"]⟩ ⟨false, [".env"]⟩
              = find fs_denied_then_hit ⟨true, ["a"]⟩ ⟨false, [".env"]⟩) :=
  ⟨by decide, by decide, by decide, by decide,
    find_error_aborts fs_denied_then_hit ⟨true, ["a"]⟩ ⟨false, [".env"]⟩
      [] [⟨true, []⟩] ⟨true, ["a"]⟩ ⟨ErrKind.permissionDenied, "denied"⟩
      (by decide) (by decide) (by decide) (by decide)⟩

/-- C4: an entry at the candidate path that exists but is not a regular file
is neither a match nor an error: the search continues with the parent
directory (`find_fall`), and the result is exactly the one obtained on a
filesystem where no entry exists at that candidate at all. -/
theorem find_nonfile_skips (fs : FsPath → Metadata) (D F : FsPath)
    (h : fs (D.join F) = Metadata.ok false) :
    find fs D F = find_fall fs D F
    ∧ ∀ m : String,
        find fs D F =
          find (fun q => if q = D.join F then Metadata.err ⟨ErrKind.notFound, m⟩ else fs q)
            D F := by
  constructor
  · exact find_fall_through fs D F (by rw [h]; rfl)
  · intro m
    apply find_agree
    intro q
    by_cases hq : q = D.join F
    · right
      constructor
      · rw [hq, h]; rfl
      · simp only [hq, if_pos rfl]
        simp [Metadata.falls_through]
    · left
      simp [hq]

/-- C4 witness: `/a/.env` is a directory; searching from `/a` skips it and
finds the regular file `/.env`, exactly as if `/a/.env` did not exist. -/
theorem find_nonfile_skips_witness :
    fs_dir_entry (FsPath.join ⟨true, ["a"]⟩ ⟨false, [".env"]⟩) = Metadata.ok false
    ∧ (find fs_dir_entry ⟨true, ["a"]⟩ ⟨false, [".env"]⟩
          = find_fall fs_dir_entry ⟨true, ["a"]⟩ ⟨false, [".env"]⟩
        ∧ ∀ m : String,
            find fs_dir_entry ⟨true, ["a"]⟩ ⟨false, [".env"]⟩
              = find (fun q =>
                  if q = FsPath.join ⟨true, ["a"]⟩ ⟨false, [".env"]⟩ then
                    Metadata.err ⟨ErrKind.notFound, m⟩
                  else fs_dir_entry q)
                ⟨true, ["a"]⟩ ⟨false, [".env"]⟩) :=
  ⟨by decide,
    find_nonfile_skips fs_dir_entry ⟨true, ["a"]⟩ ⟨false, [".env"]⟩ (by decide)⟩

/-- C5: `find` terminates for every start directory and filename: the
ancestor chain is finite, its length is one more than the number of path
components, and running the same algorithm with that much fuel never runs
out, producing exactly `find`'s result. -/
theorem find_terminates (fs : FsPath → Metadata) (D F : FsPath) :
    D.ancestors.length = D.components.length + 1
    ∧ find_fuel fs D.ancestors.length D F = some (find fs D F) := by
  have hlen : D.ancestors.length = D.components.length + 1 := by
    unfold FsPath.ancestors
    simp
  exact ⟨hlen, by rw [hlen]; exact find_eq_fuel fs D F⟩

/-- C6: `Error.not_found` is true exactly when the active variant is an
`IoError` whose wrapped OS error's kind is "not found"; it is false for the
`Parse` and `EnvVar` variants and for every `IoError` of another kind. -/
theorem error_not_found_characterization :
    (∀ e : Error, e.not_found = true ↔
      ∃ ie : IoError, e = Error.ioErr ie ∧ ie.source.kind = ErrKind.notFound)
    ∧ (∀ pe : ParseError, (Error.parse pe).not_found = false)
    ∧ (∀ ve : VarError, (Error.envVar ve).not_found = false) := by
  refine ⟨?_, fun _ => rfl, fun _ => rfl⟩
  intro e
  cases e with
  | parse pe => simp [Error.not_found]
  | ioErr ie => simp [Error.not_found]
  | envVar ve => simp [Error.not_found]

/-- C7: `Error.path` returns exactly the optional path attached at
construction for the `Parse` and `Io` variants and `none` for the `EnvVar`
variant; it is a pure function of the error value. -/
theorem error_path_accessor :
    (∀ pe : ParseError, (Error.parse pe).path = pe.path)
    ∧ (∀ ie : IoError, (Error.ioErr ie).path = ie.path)
    ∧ (∀ ve : VarError, (Error.envVar ve).path = none)
    ∧ (∀ (p : Option FsPath) (l : String) (c : Nat),
        (Error.parse (ParseError.from_parts p l c)).path = p)
    ∧ (∀ (p : Option FsPath) (s : OsError),
        (Error.ioErr (IoError.from_parts p s)).path = p)
    ∧ (∀ s : OsError, (Error.ioErr (IoError.without_path s)).path = none) :=
  ⟨fun _ => rfl, fun _ => rfl, fun _ => rfl, fun _ _ _ => rfl, fun _ _ => rfl,
    fun _ => rfl⟩

/-- C8: an `IoError` built from path `P` and OS error `E` displays as
`"P: E"`; a `ParseError` built from path `P`, line `L` and column `C`
displays as `"P: 'L', error at column C"`; without a path each variant
renders only its detail part. -/
theorem error_display_roundtrip :
    (∀ (p : FsPath) (e : OsError),
        (IoError.from_parts (some p) e).display = p.render ++ ": " ++ e.msg)
    ∧ (∀ (p : FsPath) (l : String) (c : Nat),
        (ParseError.from_parts (some p) l c).display
          = p.render ++ ": '" ++ l ++ "', error at column " ++ toString c)
    ∧ (∀ e : OsError, (IoError.from_parts none e).display = e.msg)
    ∧ (∀ e : OsError, (IoError.without_path e).display = e.msg)
    ∧ (∀ (l : String) (c : Nat),
        (ParseError.from_parts none l c).display
          = "'" ++ l ++ "', error at column " ++ toString c) := by
  refine ⟨fun p e => rfl, ?_, fun e => rfl, fun e => rfl, fun l c => rfl⟩
  intro p l c
  show ((((p.render ++ ": ") ++ "'") ++ l) ++ "', error at column ") ++ toString c
      = (((p.render ++ ": '") ++ l) ++ "', error at column ") ++ toString c
  congr 3
  rw [String.append_assoc]
  congr 1

/-- C9 counterexample to the claim as stated: `ParseError::from_parts`
records any supplied column without validation; column 5 of the empty line
is not a position within that line. -/
theorem parse_error_col_invariant_cex :
    ¬((ParseError.from_parts none "" 5).col
        ≤ (ParseError.from_parts none "" 5).line.length) := by
  decide

/-- C9 (amended): `from_parts` stores the line text and the column exactly
as supplied and validates nothing, so a constructed `ParseError` satisfies
the invariant "the column is a position within the line text" exactly when
the caller supplies a column within the line: the invariant is the caller's
obligation, not enforced at construction. -/
theorem parse_error_col_invariant (p : Option FsPath) (l : String) (c : Nat) :
    (ParseError.from_parts p l c).col = c
    ∧ (ParseError.from_parts p l c).line = l
    ∧ (c ≤ l.length →
        (ParseError.from_parts p l c).col
          ≤ (ParseError.from_parts p l c).line.length) :=
  ⟨rfl, rfl, fun h => h⟩

/-- C9 witness at the column-2 error of the nine-character line of the
repository's own test. -/
theorem parse_error_col_invariant_witness :
    (ParseError.from_parts (some ⟨false, ["path", "to", ".env"]⟩) "test line" 2).col = 2
    ∧ (ParseError.from_parts (some ⟨false, ["path", "to", ".env"]⟩) "test line" 2).line
        = "test line"
    ∧ (2 ≤ ("test line" : String).length →
        (ParseError.from_parts (some ⟨false, ["path", "to", ".env"]⟩) "test line" 2).col
          ≤ (ParseError.from_parts
              (some ⟨false, ["path", "to", ".env"]⟩) "test line" 2).line.length) :=
  parse_error_col_invariant (some ⟨false, ["path", "to", ".env"]⟩) "test line" 2

/-- C10 (amended): with an absolute filename `F`, the candidate at every
step equals `F` itself, so `find` returns `Ok F` whenever `F` names a
regular file and aborts with an error at `F` on a non-"not found" metadata
failure, independently of `D`; otherwise the same single path `F` is
re-examined at every ancestor level and the final "not found" failure is
tagged with `D`'s parentless root — the one residual dependence on `D`
(see the counterexample). -/
theorem find_absolute_filename (fs : FsPath → Metadata) (D F : FsPath)
    (habs : F.absolute = true) :
    D.join F = F
    ∧ find fs D F =
        (match fs F with
         | Metadata.ok is_file =>
             if is_file then Except.ok F
             else Except.error (Error.ioErr (IoError.from_parts (some ⟨D.absolute, []⟩)
               (OsError.mk ErrKind.notFound "path not found")))
         | Metadata.err e =>
             if e.kind ≠ ErrKind.notFound then
               Except.error (Error.ioErr (IoError.from_parts (some F) e))
             else Except.error (Error.ioErr (IoError.from_parts (some ⟨D.absolute, []⟩)
               (OsError.mk ErrKind.notFound "path not found")))) :=
  ⟨FsPath.join_absolute D F habs, find_absolute_core fs F habs D⟩

/-- C10 witness: searching for the absolute filename `/.env` from `/a/b`
joins to `/.env` itself and succeeds there. -/
theorem find_absolute_filename_witness :
    (⟨true, [".env"]⟩ : FsPath).absolute = true
    ∧ (FsPath.join ⟨true, ["a", "b"]⟩ ⟨true, [".env"]⟩ = ⟨true, [".env"]⟩
        ∧ find fs_hit_at_root ⟨true, ["a", "b"]⟩ ⟨true, [".env"]⟩ =
            (match fs_hit_at_root ⟨true, [".env"]⟩ with
             | Metadata.ok is_file =>
                 if is_file then Except.ok (⟨true, [".env"]⟩ : FsPath)
                 else Except.error (Error.ioErr (IoError.from_parts (some ⟨true, []⟩)
                   (OsError.mk ErrKind.notFound "path not found")))
             | Metadata.err e =>
                 if e.kind ≠ ErrKind.notFound then
                   Except.error (Error.ioErr
                     (IoError.from_parts (some ⟨true, [".env"]⟩) e))
                 else Except.error (Error.ioErr (IoError.from_parts (some ⟨true, []⟩)
                   (OsError.mk ErrKind.notFound "path not found"))))) :=
  ⟨rfl, find_absolute_filename fs_hit_at_root ⟨true, ["a", "b"]⟩ ⟨true, [".env"]⟩ rfl⟩

/-- C10 counterexample to "the outcome of the search is independent of D":
with an absolute filename present nowhere, searching from the root `/` and
from the empty relative path yields different errors — each is tagged with
the parentless root of its own start directory. -/
theorem find_absolute_filename_cex :
    (⟨true, [".env"]⟩ : FsPath).absolute = true
    ∧ find fs_all_missing ⟨true, []⟩ ⟨true, [".env"]⟩
        ≠ find fs_all_missing ⟨false, []⟩ ⟨true, [".env"]⟩ := by
  refine ⟨rfl, ?_⟩
  rw [find_eval fs_all_missing ⟨true, []⟩ ⟨true, [".env"]⟩
    (Except.error (Error.ioErr (IoError.from_parts (some ⟨true, []⟩)
      (OsError.mk ErrKind.notFound "path not found")))) (by decide)]
  rw [find_eval fs_all_missing ⟨false, []⟩ ⟨true, [".env"]⟩
    (Except.error (Error.ioErr (IoError.from_parts (some ⟨false, []⟩)
      (OsError.mk ErrKind.notFound "path not found")))) (by decide)]
  decide

end Dotenvy
